import Mathlib

/-!
Shallow embedding of `archlink` (src/main.rs): a package search/install CLI.
We model the ranking engine (`score_package`, `rank_results`), the result
aggregator (`search_packages`, lines 126-157), the pacman-output parser
(`search_official_repos`), and the install fallback orchestrator
(`install_package`), and prove the specification claims about them.

Strings are modelled as `List Char` (`strsim::levenshtein` iterates chars,
and UTF-8 substring search coincides with char-level infix search).
Machine integers: the score is a `u32`; in debug builds Rust panics on
underflow/overflow, which we model with `Option Nat` (`none` = panic), with
`U32MOD = 2^32` making the overflow checks explicit.  The `as u32` cast of the
`usize` distance truncates (never panics), modelled by `% U32MOD`.
-/

namespace Archlink

/-- 2^32, the modulus / overflow bound of Rust's `u32`. -/
def U32MOD : Nat := 4294967296

/-- The `Package` struct (main.rs lines 32-38).  `source` is a `&'static str`
tag, `"official"` or `"aur"` (or `"unknown"` for direct installs). -/
structure Package where
  name : List Char
  version : List Char
  description : List Char
  source : String
deriving DecidableEq, Repr

/-- Character-level Levenshtein edit distance (insertions, deletions,
substitutions each cost 1), as computed by `strsim::levenshtein`
(main.rs line 9, used at line 364): Mathlib's `levenshtein` with the
unit cost structure satisfies exactly the textbook recurrence
(`levenshtein_cons_cons` with `defaultCost`). -/
def lev (a b : List Char) : Nat :=
  levenshtein (@Levenshtein.defaultCost Char _) a b

theorem lev_nil_left (ys : List Char) : lev [] ys = ys.length := by
  induction ys with
  | nil => simp [lev, levenshtein_nil_nil]
  | cons y ys ih =>
    rw [lev, levenshtein_nil_cons]
    simp only [Levenshtein.defaultCost_insert, List.length_cons]
    rw [lev] at ih
    omega

/-- `needle` is a prefix of `hay` (char-by-char comparison). -/
def leadsWith : List Char → List Char → Bool
  | [], _ => true
  | _ :: _, [] => false
  | n :: ns, h :: hs => n = h && leadsWith ns hs

/-- `hay.contains(needle)` for Rust strings: `needle` occurs contiguously in
`hay` (UTF-8 byte substring search coincides with char-level search). -/
def occursIn (needle : List Char) : List Char → Bool
  | [] => leadsWith needle []
  | h :: hs => leadsWith needle (h :: hs) || occursIn needle hs

/-- Rust `str::split_whitespace` (main.rs line 352): split on whitespace,
dropping empty fragments.  `acc` holds the current word reversed. -/
def splitWSAux : List Char → List Char → List (List Char)
  | acc, [] => if acc = [] then [] else [acc.reverse]
  | acc, c :: cs =>
    if c.isWhitespace then
      if acc = [] then splitWSAux [] cs else acc.reverse :: splitWSAux [] cs
    else splitWSAux (c :: acc) cs

def splitWhitespace (s : List Char) : List (List Char) := splitWSAux [] s

/-- Rust `str::to_lowercase` (main.rs lines 367, 369), modelled char-wise. -/
def toLowerStr (s : List Char) : List Char := s.map Char.toLower

/-- `desc_lower.contains(&word.to_lowercase())` (main.rs line 369). -/
def wordHit (desc_lower w : List Char) : Bool :=
  occursIn (toLowerStr w) desc_lower

/-- The `for word in query_words { if contains { score += 50 } }` loop of
`score_package` (main.rs lines 368-372), with the u32 overflow check of each
`score += 50` made explicit (`none` = debug-build panic). -/
def addBonus (desc_lower : List Char) : Nat → List (List Char) → Option Nat
  | score, [] => some score
  | score, w :: ws =>
    if wordHit desc_lower w then
      if score + 50 < U32MOD then addBonus desc_lower (score + 50) ws
      else none
    else addBonus desc_lower score ws

/-- `score_package` (main.rs lines 363-374).  `name_dist` is
`levenshtein(&pkg.name, query) as u32` (the `as u32` cast truncates);
`1000 - name_dist` underflows (debug panic, `none`) when the truncated
distance exceeds 1000. -/
def score_package (pkg : Package) (query : List Char)
    (query_words : List (List Char)) : Option Nat :=
  let name_dist := lev pkg.name query % U32MOD
  if name_dist ≤ 1000 then
    addBonus (toLowerStr pkg.description) (1000 - name_dist) query_words
  else none

/-- The score as used by the ranking engine: the query words are
`query.split_whitespace()` (main.rs line 352). -/
def scoreQ (pkg : Package) (query : List Char) : Option Nat :=
  score_package pkg query (splitWhitespace query)

/-- Number of query words (counted with multiplicity) that occur
case-insensitively in the description. -/
def hitCount (pkg : Package) (query_words : List (List Char)) : Nat :=
  (query_words.filter (fun w => wordHit (toLowerStr pkg.description) w)).length

theorem addBonus_eq (desc_lower : List Char) :
    ∀ (ws : List (List Char)) (s : Nat),
      s + 50 * (ws.filter (fun w => wordHit desc_lower w)).length < U32MOD →
      addBonus desc_lower s ws =
        some (s + 50 * (ws.filter (fun w => wordHit desc_lower w)).length)
  | [], s, _ => by simp [addBonus]
  | w :: ws, s, h => by
    by_cases hw : wordHit desc_lower w
    · have hlt : s + 50 + 50 * (ws.filter (fun w => wordHit desc_lower w)).length < U32MOD := by
        simp only [List.filter_cons, hw, if_pos, List.length_cons] at h
        omega
      have := addBonus_eq desc_lower ws (s + 50) hlt
      simp only [addBonus, hw, if_pos, List.filter_cons, List.length_cons]
      rw [if_pos (by omega), this]
      congr 1
      omega
    · simp only [List.filter_cons, hw] at h ⊢
      simp only [addBonus, hw, Bool.false_eq_true, if_neg, if_false]
      exact addBonus_eq desc_lower ws s h

/-- C1: for every candidate and query, whenever the character-level edit
distance `d` between the candidate's name and the full query is at most 1000
(and the u32 score does not overflow), the ranking score is exactly
`1000 - d` plus a bonus of 50 for each whitespace-delimited word of the query
occurring case-insensitively as a substring of the description (each query
word counted once, however often it occurs in the description). -/
theorem score_is_editdist_plus_bonus (pkg : Package) (query : List Char)
    (hd : lev pkg.name query ≤ 1000)
    (hov : 1000 - lev pkg.name query + 50 * hitCount pkg (splitWhitespace query) < U32MOD) :
    scoreQ pkg query =
      some (1000 - lev pkg.name query + 50 * hitCount pkg (splitWhitespace query)) := by
  have hmod : lev pkg.name query % U32MOD = lev pkg.name query :=
    Nat.mod_eq_of_lt (lt_of_le_of_lt hd (by norm_num [U32MOD]))
  unfold scoreQ score_package
  simp only [hmod, if_pos hd]
  exact addBonus_eq _ _ _ hov

/-- C1 witness: the spec's scenario.  Query `"fire fox"`, candidate name
`"firefox"`, description `"web browser"`: edit distance 1, no word hit,
score 999. -/
theorem score_is_editdist_plus_bonus_witness :
    scoreQ
      { name := "firefox".data, version := "1".data,
        description := "web browser".data, source := "official" }
      "fire fox".data = some 999 := by
  have h := score_is_editdist_plus_bonus
    { name := "firefox".data, version := "1".data,
      description := "web browser".data, source := "official" }
    "fire fox".data (by decide) (by decide)
  rw [h]
  decide

/-- C9: the scoring function is partial: whenever the edit distance between
the candidate's name and the query (truncated by the `as u32` cast) exceeds
1000, the unsigned subtraction `1000 - name_dist` underflows and the function
panics in debug builds (modelled as `none`) instead of producing a score. -/
theorem score_underflows_beyond_1000 (pkg : Package) (query : List Char)
    (query_words : List (List Char))
    (hd : 1000 < lev pkg.name query % U32MOD) :
    score_package pkg query query_words = none := by
  unfold score_package
  simp only [if_neg (by omega : ¬ lev pkg.name query % U32MOD ≤ 1000)]

/-- C9 witness: a query 1001 characters longer than the (empty) candidate name
has edit distance 1001 > 1000, and the score is undefined (debug panic). -/
theorem score_underflows_beyond_1000_witness :
    score_package
      { name := [], version := [], description := [], source := "official" }
      (List.replicate 1001 'a') [] = none := by
  apply score_underflows_beyond_1000
  simp only [lev_nil_left, List.length_replicate]
  decide

/-! ### Ranking engine: `rank_results` (main.rs lines 342-361) -/

/-- The score value used by the sort comparator; only meaningful when the
score is defined (no u32 underflow/overflow). -/
def scoreD (query : List Char) (qws : List (List Char)) (pkg : Package) : Nat :=
  (score_package pkg query qws).getD 0

/-- The sort comparator of main.rs lines 353-357:
`score_b.cmp(&score_a)` sorts by descending score, so `a` may precede `b`
exactly when `score b ≤ score a`. -/
def rankLE (query : List Char) (qws : List (List Char)) (a b : Package) : Bool :=
  decide (scoreD query qws b ≤ scoreD query qws a)

/-- Rust `Vec::sort_by` is a stable sort; `List.mergeSort` is the stable sort
with the same comparator, hence computes the same list. -/
def sortByScore (query : List Char) (l : List Package) : List Package :=
  l.mergeSort (rankLE query (splitWhitespace query))

/-- All candidate scores are defined (the comparator calls `score_package` on
the candidates while sorting; an underflowing/overflowing score is a
debug-build panic, modelled by `rank_results` returning `none`). -/
def allScoresDefined (query : List Char) (l : List Package) : Bool :=
  l.all (fun p => (score_package p query (splitWhitespace query)).isSome)

/-- `rank_results` (main.rs lines 342-361): concatenate official and AUR
results, stably sort by descending score against the query, then truncate to
`max_results`. -/
def rank_results (official aur : List Package) (query : List Char)
    (max_results : Nat) : Option (List Package) :=
  let combined := official ++ aur
  if allScoresDefined query combined then
    some ((sortByScore query combined).take max_results)
  else none

theorem rankLE_total (query : List Char) (qws : List (List Char)) :
    ∀ a b : Package, rankLE query qws a b || rankLE query qws b a := by
  intro a b
  simp only [rankLE, Bool.or_eq_true, decide_eq_true_eq]
  omega

theorem rankLE_trans (query : List Char) (qws : List (List Char)) :
    ∀ a b c : Package, rankLE query qws a b → rankLE query qws b c →
      rankLE query qws a c := by
  intro a b c hab hbc
  simp only [rankLE, decide_eq_true_eq] at *
  omega

theorem sortByScore_sorted (query : List Char) (l : List Package) :
    (sortByScore query l).Pairwise
      (fun a b => rankLE query (splitWhitespace query) a b) :=
  List.sorted_mergeSort (rankLE_trans query (splitWhitespace query))
    (rankLE_total query (splitWhitespace query)) l

theorem sortByScore_perm (query : List Char) (l : List Package) :
    List.Perm (sortByScore query l) l :=
  List.mergeSort_perm l _

/-- Sample packages for concrete instantiations. -/
def sampleOffA : Package :=
  { name := "a".data, version := "1".data, description := [], source := "official" }

def sampleAurB : Package :=
  { name := "ab".data, version := "1".data, description := [], source := "aur" }

def sampleOffX : Package :=
  { name := "x".data, version := "1".data, description := [], source := "official" }

def sampleAurY : Package :=
  { name := "y".data, version := "1".data, description := [], source := "aur" }

/-- C6: for every candidate list, query, and positive limit (when no score
panics), the ranking operation sorts the full merged list by descending score
and only then truncates: the output is exactly the `limit`-prefix of the full
sorted order, has length at most `limit`, and no candidate outside the output
has a strictly higher score than any candidate inside it. -/
theorem rank_is_sort_then_truncate (official aur : List Package)
    (query : List Char) (m : Nat) (hm : 0 < m)
    (hall : allScoresDefined query (official ++ aur) = true) :
    ∃ out, rank_results official aur query m = some out ∧
      out = (sortByScore query (official ++ aur)).take m ∧
      out.length ≤ m ∧
      ∀ x ∈ official ++ aur, x ∉ out → ∀ y ∈ out,
        scoreD query (splitWhitespace query) x ≤
          scoreD query (splitWhitespace query) y := by
  refine ⟨(sortByScore query (official ++ aur)).take m,
    by simp [rank_results, hall], rfl, List.length_take_le m _, ?_⟩
  intro x hx hnx y hy
  have hxs : x ∈ sortByScore query (official ++ aur) :=
    (sortByScore_perm query _).mem_iff.mpr hx
  have hsplit := List.take_append_drop m (sortByScore query (official ++ aur))
  have hxs' : x ∈ (sortByScore query (official ++ aur)).take m ++
      (sortByScore query (official ++ aur)).drop m := by
    rw [hsplit]; exact hxs
  have hxd : x ∈ (sortByScore query (official ++ aur)).drop m := by
    rcases List.mem_append.mp hxs' with h | h
    · exact absurd h hnx
    · exact h
  have hpair := sortByScore_sorted query (official ++ aur)
  rw [← hsplit] at hpair
  have := (List.pairwise_append.mp hpair).2.2 y hy x hxd
  simpa [rankLE, decide_eq_true_eq] using this

/-- C6 witness at a concrete input: one official and one AUR candidate,
query `"a"`, limit 1. -/
theorem rank_is_sort_then_truncate_witness :
    ∃ out, rank_results [sampleOffA] [sampleAurB] "a".data 1 = some out ∧
      out = (sortByScore "a".data ([sampleOffA] ++ [sampleAurB])).take 1 ∧
      out.length ≤ 1 ∧
      ∀ x ∈ [sampleOffA] ++ [sampleAurB], x ∉ out → ∀ y ∈ out,
        scoreD "a".data (splitWhitespace "a".data) x ≤
          scoreD "a".data (splitWhitespace "a".data) y :=
  rank_is_sort_then_truncate [sampleOffA] [sampleAurB] "a".data 1
    (by decide) (by decide)

/-- C7: ranking is idempotent: re-ranking an already-ranked, non-truncated
list (the limit was at least the merged length) with the same query and any
limit at least its length yields the same list in the same order. -/
theorem rank_results_idempotent (official aur : List Package)
    (query : List Char) (m m' : Nat)
    (hm : (official ++ aur).length ≤ m)
    (hall : allScoresDefined query (official ++ aur) = true) :
    ∃ out, rank_results official aur query m = some out ∧
      (out.length ≤ m' → rank_results out [] query m' = some out) := by
  have hlen : (sortByScore query (official ++ aur)).length =
      (official ++ aur).length := (sortByScore_perm query _).length_eq
  have htake : (sortByScore query (official ++ aur)).take m =
      sortByScore query (official ++ aur) :=
    List.take_of_length_le (by omega)
  refine ⟨(sortByScore query (official ++ aur)).take m,
    by simp [rank_results, hall], ?_⟩
  rw [htake]
  intro hm'
  have hall' : allScoresDefined query
      (sortByScore query (official ++ aur) ++ []) = true := by
    simp only [List.append_nil, allScoresDefined, List.all_eq_true] at hall ⊢
    intro p hp
    exact hall p ((sortByScore_perm query _).mem_iff.mp hp)
  have hfix : sortByScore query (sortByScore query (official ++ aur) ++ []) =
      sortByScore query (official ++ aur) := by
    rw [List.append_nil]
    exact List.mergeSort_of_sorted (sortByScore_sorted query _)
  simp only [rank_results, hall', if_true, hfix]
  rw [List.take_of_length_le hm']

/-- C7 witness at a concrete input. -/
theorem rank_results_idempotent_witness :
    ∃ out, rank_results [sampleOffA] [sampleAurB] "a".data 2 = some out ∧
      (out.length ≤ 2 → rank_results out [] "a".data 2 = some out) :=
  rank_results_idempotent [sampleOffA] [sampleAurB] "a".data 2 2
    (by decide) (by decide)

/-- C10: the tie-break among equal-score candidates is the stable order of
the merged input: the ranked output is a prefix of the stably sorted
official-then-AUR concatenation, a pair of equal-score candidates keeps its
input order in the sorted order, and consequently on ties an official
candidate precedes an AUR candidate. -/
theorem rank_tiebreak_stable (official aur : List Package) (query : List Char)
    (hall : allScoresDefined query (official ++ aur) = true) (a b : Package)
    (heq : scoreD query (splitWhitespace query) a =
      scoreD query (splitWhitespace query) b) :
    (∀ m, rank_results official aur query m =
      some ((sortByScore query (official ++ aur)).take m)) ∧
    (List.Sublist [a, b] (official ++ aur) →
      List.Sublist [a, b] (sortByScore query (official ++ aur))) ∧
    (a ∈ official → b ∈ aur →
      List.Sublist [a, b] (sortByScore query (official ++ aur))) := by
  have hstab : List.Sublist [a, b] (official ++ aur) →
      List.Sublist [a, b] (sortByScore query (official ++ aur)) := by
    intro hsub
    exact List.pair_sublist_mergeSort (rankLE_trans _ _) (rankLE_total _ _)
      (by simp [rankLE, heq]) hsub
  refine ⟨fun m => by simp [rank_results, hall], hstab, fun ha hb => ?_⟩
  exact hstab
    (List.Sublist.append (List.singleton_sublist.mpr ha)
      (List.singleton_sublist.mpr hb))

/-- C10 witness: two distinct candidates with equal score 999 against query
`"a"`, official first. -/
theorem rank_tiebreak_stable_witness :
    (∀ m, rank_results [sampleOffX] [sampleAurY] "a".data m =
      some ((sortByScore "a".data ([sampleOffX] ++ [sampleAurY])).take m)) ∧
    (List.Sublist [sampleOffX, sampleAurY] ([sampleOffX] ++ [sampleAurY]) →
      List.Sublist [sampleOffX, sampleAurY]
        (sortByScore "a".data ([sampleOffX] ++ [sampleAurY]))) ∧
    (sampleOffX ∈ [sampleOffX] → sampleAurY ∈ [sampleAurY] →
      List.Sublist [sampleOffX, sampleAurY]
        (sortByScore "a".data ([sampleOffX] ++ [sampleAurY]))) :=
  rank_tiebreak_stable [sampleOffX] [sampleAurY] "a".data (by decide)
    sampleOffX sampleAurY (by decide)

/-! ### Parsing of `pacman -Ss` output: `search_official_repos`
(main.rs lines 258-305).  We model the pure parsing of the captured stdout;
running the subprocess itself is the fetcher boundary. -/

/-- Split a char list on every occurrence of `sep` (Rust `str::split`).
Always returns at least one (possibly empty) fragment. -/
def splitAllAux (sep : Char) : List Char → List Char → List (List Char)
  | acc, [] => [acc.reverse]
  | acc, c :: cs =>
    if c = sep then acc.reverse :: splitAllAux sep [] cs
    else splitAllAux sep (c :: acc) cs

def splitAll (sep : Char) (s : List Char) : List (List Char) := splitAllAux sep [] s

/-- Rust `str::lines`: split on `'\n'`, drop a final empty fragment (from a
trailing newline), strip one trailing `'\r'` per line. -/
def rustLines (s : List Char) : List (List Char) :=
  let parts := splitAll '\n' s
  let parts := if parts.getLast? = some [] then parts.dropLast else parts
  parts.map (fun l => if l.getLast? = some '\r' then l.dropLast else l)

/-- Rust `str::splitn(2, sep)`: the fragment before the first `sep`, and
(when `sep` occurs) the rest. -/
def splitn2 (sep : Char) : List Char → List Char × Option (List Char)
  | [] => ([], none)
  | c :: cs =>
    if c = sep then ([], some cs)
    else
      let r := splitn2 sep cs
      (c :: r.1, r.2)

/-- Rust `str::trim`: strip whitespace from both ends. -/
def trimStr (s : List Char) : List Char :=
  ((s.dropWhile Char.isWhitespace).reverse.dropWhile Char.isWhitespace).reverse

/-- One iteration of the `for line in output_str.lines()` loop of
`search_official_repos` (main.rs lines 271-300), threading the
`(packages, current_pkg)` state. -/
def pacLine (st : List Package × Option Package) (line : List Char) :
    List Package × Option Package :=
  match line with
  | ' ' :: _ =>
    -- indented continuation line: append `line.trim()` and a space
    match st.2 with
    | some pkg =>
      (st.1, some { pkg with description := pkg.description ++ trimStr line ++ [' '] })
    | none => st
  | [] => st
  | _ =>
    -- non-empty header line: flush `current_pkg`, then parse `name version desc`
    let packages := match st.2 with
      | some pkg => st.1 ++ [pkg]
      | none => st.1
    match splitn2 ' ' line with
    | (_, none) => (packages, none)  -- `parts.len() < 2`: continue
    | (p0, some p1) =>
      let name := (splitAll '/' p0).getLastD "unknown".data
      let vd := splitn2 ' ' p1
      let version := vd.1
      let description := match vd.2 with
        | some d => d
        | none => "No description available".data
      (packages, some ⟨name, version, description, "official"⟩)

/-- The parsing performed by `search_official_repos` on the captured
`pacman -Ss` stdout (main.rs lines 268-304). -/
def parsePacmanOutput (output : List Char) : List Package :=
  let st := (rustLines output).foldl pacLine ([], none)
  match st.2 with
  | some pkg => st.1 ++ [pkg]
  | none => st.1

/-- The duplicated package record that `"repo/foo 1.0-1 d\nextra/foo 1.0-1 d\n"`
parses to, twice: the repository part before `/` is discarded, so the same
name is emitted twice by the single official source. -/
def pkgFooDup : Package :=
  { name := "foo".data, version := "1.0-1".data, description := "d".data,
    source := "official" }

/-- C8 counterexample: the claim that repeated emissions of the same name
within a single source collapse to one entry is false: the official-repo
parser emits the name `foo` twice for a two-entry `pacman -Ss` output, and
the ranking stage keeps both entries (output of length 2, not 1). -/
theorem dedup_within_source_fails :
    parsePacmanOutput "repo/foo 1.0-1 d\nextra/foo 1.0-1 d\n".data =
      [pkgFooDup, pkgFooDup] ∧
    rank_results [pkgFooDup, pkgFooDup] [] "foo".data 10 =
      some [pkgFooDup, pkgFooDup] := by
  constructor
  · decide
  · have hsorted : List.Pairwise
        (fun a b => rankLE "foo".data (splitWhitespace "foo".data) a b)
        [pkgFooDup, pkgFooDup] := by
      simp [List.pairwise_cons, rankLE]
    have hfix : sortByScore "foo".data ([pkgFooDup, pkgFooDup] ++ []) =
        [pkgFooDup, pkgFooDup] := by
      rw [List.append_nil]
      exact List.mergeSort_of_sorted hsorted
    have hall : allScoresDefined "foo".data ([pkgFooDup, pkgFooDup] ++ []) = true := by
      decide
    simp only [rank_results, hall, if_true, hfix]
    rfl

/-- C8 (amended): no deduplication is performed anywhere in the pipeline —
neither across sources nor within a single source.  The ranking stage
preserves the multiplicity of every candidate of the merged list (it only
reorders and truncates), so repeated emissions of one name from one source
remain separate entries. -/
theorem rank_preserves_multiplicity (official aur : List Package)
    (query : List Char) (m : Nat)
    (hall : allScoresDefined query (official ++ aur) = true) :
    rank_results official aur query m =
      some ((sortByScore query (official ++ aur)).take m) ∧
    ∀ p : Package, (sortByScore query (official ++ aur)).count p =
      (official ++ aur).count p := by
  constructor
  · simp [rank_results, hall]
  · intro p
    exact (sortByScore_perm query (official ++ aur)).count_eq p

/-- C8 (amended) witness: the duplicated `foo` entries survive in the sorted
order with multiplicity 2. -/
theorem rank_preserves_multiplicity_witness :
    rank_results [pkgFooDup, pkgFooDup] [] "foo".data 10 =
      some ((sortByScore "foo".data ([pkgFooDup, pkgFooDup] ++ [])).take 10) ∧
    ∀ p : Package,
      (sortByScore "foo".data ([pkgFooDup, pkgFooDup] ++ [])).count p =
        ([pkgFooDup, pkgFooDup] ++ []).count p :=
  rank_preserves_multiplicity [pkgFooDup, pkgFooDup] [] "foo".data 10
    (by decide)

/-! ### Aggregator: the fetch-and-merge portion of `search_packages`
(main.rs lines 126-157).  The three fetchers (`search_arch_website`,
`search_official_repos`, `search_aur`) are the external boundary; each is
modelled by its result, `Except` error or candidate list. -/

structure AggResult where
  official : List Package
  aur : List Package
  warnings : List String
deriving DecidableEq, Repr

/-- Lines 127-147 of main.rs: start with empty `official_results`, extend
with the web fetcher's candidates on success (warn on failure), fall back to
the pacman fetcher only when `official_results` is still empty, and take the
AUR fetcher's candidates or empty on failure.  Fetcher failures never
propagate: the function is total in the fetcher results. -/
def aggregate (web pacman aur : Except String (List Package)) : AggResult :=
  let s1 := match web with
    | .ok rs => (rs, ([] : List String))
    | .error e => ([], ["Warning: Web search failed: " ++ e])
  let s2 :=
    if s1.1.isEmpty then
      match pacman with
      | .ok rs => (s1.1 ++ rs, ([] : List String))
      | .error e => (s1.1, ["Warning: pacman search failed: " ++ e])
    else (s1.1, [])
  let s3 := match aur with
    | .ok rs => (rs, ([] : List String))
    | .error e => ([], ["Warning: AUR search failed: " ++ e])
  ⟨s2.1, s3.1, s1.2 ++ s2.2 ++ s3.2⟩

/-- C5: a single fetcher's failure is caught locally as a warning and treated
as an empty result for that source, so the aggregate never fails and returns
exactly the successful source's candidates; when both sources fail, the
aggregate is the empty sequence (with warnings), not an error.  (Totality in
the fetcher errors is by the type of `aggregate`.) -/
theorem aggregate_tolerates_failures (e1 e2 e3 : String) (ro ra : List Package)
    (pac : Except String (List Package)) (hro : ro ≠ []) :
    (aggregate (.error e1) (.error e2) (.ok ra) =
      ⟨[], ra, ["Warning: Web search failed: " ++ e1,
        "Warning: pacman search failed: " ++ e2]⟩) ∧
    (aggregate (.ok ro) pac (.error e3) =
      ⟨ro, [], ["Warning: AUR search failed: " ++ e3]⟩) ∧
    (aggregate (.error e1) (.error e2) (.error e3) =
      ⟨[], [], ["Warning: Web search failed: " ++ e1,
        "Warning: pacman search failed: " ++ e2,
        "Warning: AUR search failed: " ++ e3]⟩) := by
  have hne : ro.isEmpty = false := by
    cases ro with
    | nil => exact absurd rfl hro
    | cons x xs => rfl
  refine ⟨?_, ?_, ?_⟩ <;> simp [aggregate, hne]

/-- C5 witness at concrete fetcher outcomes. -/
theorem aggregate_tolerates_failures_witness :
    (aggregate (.error "net down") (.error "pacman missing") (.ok [sampleAurB]) =
      ⟨[], [sampleAurB], ["Warning: Web search failed: net down",
        "Warning: pacman search failed: pacman missing"]⟩) ∧
    (aggregate (.ok [sampleOffA]) (.ok []) (.error "aur 500") =
      ⟨[sampleOffA], [], ["Warning: AUR search failed: aur 500"]⟩) ∧
    (aggregate (.error "net down") (.error "pacman missing") (.error "aur 500") =
      ⟨[], [], ["Warning: Web search failed: net down",
        "Warning: pacman search failed: pacman missing",
        "Warning: AUR search failed: aur 500"]⟩) :=
  aggregate_tolerates_failures "net down" "pacman missing" "aur 500"
    [sampleOffA] [sampleAurB] (.ok []) (by decide)

/-! ### Install orchestrator: `install_package` (main.rs lines 376-435).

The host is the external boundary: `spawnStatus prog args` is
`SysCommand::new(prog).args(args).status()` (`error` = the process could not
be spawned, `ok b` = it ran and `b` is `status.success()`), and
`whichOutput h` is `SysCommand::new("which").arg(h).output()` (`error` = the
`which` process could not be spawned, `ok b` = `which` ran and `b` is its
exit success, i.e. whether `h` is present).  Note the code tests only
`.output().is_ok()` — it never reads the exit status of `which`.

The second component of the result is the trace of installer programs for
which an install process spawn was issued (the primary `sudo pacman` attempt
is recorded as `pacman`, as in the code's `attempted` vector), in order. -/

structure Host where
  spawnStatus : String → List String → Except String Bool
  whichOutput : String → Except String Bool

inductive InstallResult where
  | ok : InstallResult
  | spawnErr : String → InstallResult
  | exhausted : List String → InstallResult
deriving DecidableEq, Repr

/-- The fixed fallback helper table (main.rs line 400). -/
def helpers : List (String × List String) := [("yay", ["-S"]), ("paru", ["-S"])]

/-- The `for (helper, args) in helpers` loop (main.rs lines 401-424).
`attempted` is the code's `attempted` vector so far; `invoked` is the trace
of installers actually passed to a spawn. -/
def tryHelpers (host : Host) (package : String) :
    List (String × List String) → List String → List String →
    InstallResult × List String
  | [], attempted, invoked => (.exhausted attempted, invoked)
  | (helper, args) :: rest, attempted, invoked =>
    if (host.whichOutput helper).isOk then
      match host.spawnStatus helper (args ++ [package]) with
      | .error e =>
        (.spawnErr ("Failed to run " ++ helper ++ ": " ++ e), invoked ++ [helper])
      | .ok true => (.ok, invoked ++ [helper])
      | .ok false =>
        tryHelpers host package rest (attempted ++ [helper]) (invoked ++ [helper])
    else tryHelpers host package rest attempted invoked

/-- `install_package` (main.rs lines 376-435): primary `sudo pacman -S`
attempt when `source` is `official` or `unknown`, then the helper fallback
loop; exhaustion returns the `attempted` list (the code interpolates it into
the error message `Failed to install '<pkg>'. Attempted: <list>. ...`). -/
def install_package (host : Host) (package source : String) :
    InstallResult × List String :=
  if source = "official" ∨ source = "unknown" then
    match host.spawnStatus "sudo" ["pacman", "-S", package, "--noconfirm"] with
    | .error e => (.spawnErr ("Failed to run pacman: " ++ e), ["pacman"])
    | .ok true => (.ok, ["pacman"])
    | .ok false => tryHelpers host package helpers ["pacman"] ["pacman"]
  else
    tryHelpers host package helpers [] []

/-- The helpers whose probe passed (as the code computes it:
`which <helper>` could be spawned at all — its exit status is ignored). -/
def probedHelpers (host : Host) : List (String × List String) :=
  helpers.filter (fun h => (host.whichOutput h.1).isOk)

/-- The ordered list of installer invocations the orchestrator will issue:
the primary manager (for `official`/`unknown` sources) followed by the
probe-passing helpers.  Each entry is
`(installer name, spawned program, arguments)`. -/
def candidateInvocations (host : Host) (package source : String) :
    List (String × String × List String) :=
  (if source = "official" ∨ source = "unknown" then
    [("pacman", "sudo", ["pacman", "-S", package, "--noconfirm"])]
  else []) ++ (probedHelpers host).map (fun h => (h.1, h.1, h.2 ++ [package]))

theorem tryHelpers_all_fail (host : Host) (package : String) :
    ∀ (hs : List (String × List String)) (attempted invoked : List String),
      (∀ h ∈ hs.filter (fun h => (host.whichOutput h.1).isOk),
        host.spawnStatus h.1 (h.2 ++ [package]) = .ok false) →
      tryHelpers host package hs attempted invoked =
        (.exhausted (attempted ++
          (hs.filter (fun h => (host.whichOutput h.1).isOk)).map Prod.fst),
         invoked ++
          (hs.filter (fun h => (host.whichOutput h.1).isOk)).map Prod.fst)
  | [], attempted, invoked, _ => by simp [tryHelpers]
  | (helper, args) :: rest, attempted, invoked, hfail => by
    have hmem : ∀ h ∈ List.filter (fun h => (host.whichOutput h.1).isOk) rest,
        h ∈ List.filter (fun h => (host.whichOutput h.1).isOk)
          ((helper, args) :: rest) := by
      intro h hh
      rcases List.mem_filter.mp hh with ⟨h1, h2⟩
      exact List.mem_filter.mpr ⟨List.mem_cons_of_mem _ h1, h2⟩
    by_cases hp : (host.whichOutput helper).isOk = true
    · have hf : host.spawnStatus helper (args ++ [package]) = .ok false :=
        hfail (helper, args)
          (List.mem_filter.mpr ⟨List.mem_cons_self _ _, hp⟩)
      have ih := tryHelpers_all_fail host package rest
        (attempted ++ [helper]) (invoked ++ [helper])
        (fun h hh => hfail h (hmem h hh))
      simp only [tryHelpers, hp, if_true, hf, ih]
      simp [List.filter_cons, hp, List.append_assoc]
    · have ih := tryHelpers_all_fail host package rest attempted invoked
        (fun h hh => hfail h (hmem h hh))
      simp only [tryHelpers, hp, if_false, ih]
      simp [List.filter_cons, hp]

/-- C2: whenever no installation attempt succeeds (every issued install
process runs and exits non-zero), the operation fails with the aggregate
exhaustion error, and the list it names is exactly the installers actually
invoked, in invocation order — for every package name and source tag. -/
theorem exhaustion_names_exactly_invoked (host : Host) (package source : String)
    (hrun : ∀ p a, host.spawnStatus p a = .ok false) :
    (install_package host package source).1 =
      .exhausted (install_package host package source).2 := by
  unfold install_package
  by_cases hs : source = "official" ∨ source = "unknown"
  · simp only [hs, if_true, hrun]
    rw [tryHelpers_all_fail host package helpers ["pacman"] ["pacman"]
      (fun h _ => hrun _ _)]
  · simp only [hs, if_false]
    rw [tryHelpers_all_fail host package helpers [] []
      (fun h _ => hrun _ _)]

def hostAllFail : Host :=
  ⟨fun _ _ => .ok false, fun _ => .ok true⟩

/-- C2 witness: on a host where every installer runs and fails, the direct
install of `foo` fails with the exhaustion error naming exactly the invoked
installers. -/
theorem exhaustion_names_exactly_invoked_witness :
    (install_package hostAllFail "foo" "unknown").1 =
      .exhausted (install_package hostAllFail "foo" "unknown").2 :=
  exhaustion_names_exactly_invoked hostAllFail "foo" "unknown"
    (fun _ _ => rfl)

theorem tryHelpers_ok_iff (host : Host) (package : String)
    (hnoerr : ∀ p a, ∃ b, host.spawnStatus p a = .ok b) :
    ∀ (hs : List (String × List String)) (attempted invoked : List String),
      (tryHelpers host package hs attempted invoked).1 = .ok ↔
        ∃ h ∈ hs.filter (fun h => (host.whichOutput h.1).isOk),
          host.spawnStatus h.1 (h.2 ++ [package]) = .ok true
  | [], attempted, invoked => by simp [tryHelpers]
  | (helper, args) :: rest, attempted, invoked => by
    by_cases hp : (host.whichOutput helper).isOk = true
    · obtain ⟨b, hb⟩ := hnoerr helper (args ++ [package])
      cases b with
      | true =>
        simp only [tryHelpers, hp, if_true, hb]
        constructor
        · intro _
          exact ⟨(helper, args),
            List.mem_filter.mpr ⟨List.mem_cons_self _ _, hp⟩, hb⟩
        · intro _
          trivial
      | false =>
        have ih := tryHelpers_ok_iff host package hnoerr rest
          (attempted ++ [helper]) (invoked ++ [helper])
        simp only [tryHelpers, hp, if_true, hb, ih]
        simp only [List.filter_cons, hp, if_pos, List.mem_cons]
        constructor
        · rintro ⟨h, hh, hspawn⟩
          exact ⟨h, Or.inr hh, hspawn⟩
        · rintro ⟨h, hh | hh, hspawn⟩
          · rw [hh] at hspawn
            rw [hspawn] at hb
            cases hb
          · exact ⟨h, hh, hspawn⟩
    · have hfe := @List.filter_cons_of_neg _
        (fun h => (host.whichOutput h.1).isOk) (helper, args) rest (by exact hp)
      have ih := tryHelpers_ok_iff host package hnoerr rest attempted invoked
      simp only [tryHelpers, hp, if_false, hfe]
      exact ih

/-- C3: a single attempt's failure is never fatal when every issued process
runs to an exit status: the operation succeeds exactly when some candidate
in the ordered invocation list (primary manager for `official`/`unknown`
sources, then the probe-passing fallback helpers) exits successfully — a
failed primary still reaches the fallback stage for every source tag — and
when every candidate fails, every one of them was invoked in order and only
then does the operation fail, by exhaustion. -/
theorem single_failure_not_fatal (host : Host) (package source : String)
    (hnoerr : ∀ p a, ∃ b, host.spawnStatus p a = .ok b) :
    ((install_package host package source).1 = .ok ↔
      ∃ c ∈ candidateInvocations host package source,
        host.spawnStatus c.2.1 c.2.2 = .ok true) ∧
    ((∀ c ∈ candidateInvocations host package source,
        host.spawnStatus c.2.1 c.2.2 = .ok false) →
      install_package host package source =
        (.exhausted ((candidateInvocations host package source).map Prod.fst),
          (candidateInvocations host package source).map Prod.fst)) := by
  by_cases hs : source = "official" ∨ source = "unknown"
  · obtain ⟨b, hb⟩ := hnoerr "sudo" ["pacman", "-S", package, "--noconfirm"]
    cases b with
    | true =>
      constructor
      · simp only [install_package, hs, if_true, hb]
        constructor
        · intro _
          exact ⟨("pacman", "sudo", ["pacman", "-S", package, "--noconfirm"]),
            by simp [candidateInvocations, hs], hb⟩
        · intro _
          trivial
      · intro hall
        have := hall ("pacman", "sudo", ["pacman", "-S", package, "--noconfirm"])
          (by simp [candidateInvocations, hs])
        rw [this] at hb
        cases hb
    | false =>
      constructor
      · simp only [install_package, hs, if_true, hb]
        rw [tryHelpers_ok_iff host package hnoerr]
        simp only [candidateInvocations, hs, if_true, probedHelpers,
          List.cons_append, List.nil_append, List.mem_cons, List.mem_map]
        constructor
        · rintro ⟨h, hh, hspawn⟩
          exact ⟨(h.1, h.1, h.2 ++ [package]), Or.inr ⟨h, hh, rfl⟩, hspawn⟩
        · rintro ⟨c, hc | ⟨h, hh, hcc⟩, hspawn⟩
          · rw [hc] at hspawn
            rw [hspawn] at hb
            cases hb
          · rw [← hcc] at hspawn
            exact ⟨h, hh, hspawn⟩
      · intro hall
        have hfails : ∀ h ∈ helpers.filter (fun h => (host.whichOutput h.1).isOk),
            host.spawnStatus h.1 (h.2 ++ [package]) = .ok false := by
          intro h hh
          refine hall (h.1, h.1, h.2 ++ [package]) ?_
          simp only [candidateInvocations, hs, if_true, probedHelpers,
            List.cons_append, List.nil_append, List.mem_cons, List.mem_map]
          exact Or.inr ⟨h, hh, rfl⟩
        simp only [install_package, hs, if_true, hb]
        rw [tryHelpers_all_fail host package helpers ["pacman"] ["pacman"] hfails]
        simp only [candidateInvocations, hs, if_true, probedHelpers,
          List.cons_append, List.nil_append, List.map_cons, List.map_map,
          List.singleton_append]
        rfl
  · constructor
    · simp only [install_package, hs, if_false]
      rw [tryHelpers_ok_iff host package hnoerr]
      simp only [candidateInvocations, hs, if_false, probedHelpers,
        List.nil_append, List.mem_map]
      constructor
      · rintro ⟨h, hh, hspawn⟩
        exact ⟨(h.1, h.1, h.2 ++ [package]), ⟨h, hh, rfl⟩, hspawn⟩
      · rintro ⟨c, ⟨h, hh, hcc⟩, hspawn⟩
        rw [← hcc] at hspawn
        exact ⟨h, hh, hspawn⟩
    · intro hall
      have hfails : ∀ h ∈ helpers.filter (fun h => (host.whichOutput h.1).isOk),
          host.spawnStatus h.1 (h.2 ++ [package]) = .ok false := by
        intro h hh
        refine hall (h.1, h.1, h.2 ++ [package]) ?_
        simp only [candidateInvocations, hs, if_false, probedHelpers,
          List.nil_append, List.mem_map]
        exact ⟨h, hh, rfl⟩
      simp only [install_package, hs, if_false]
      rw [tryHelpers_all_fail host package helpers [] [] hfails]
      simp only [candidateInvocations, hs, if_false, probedHelpers,
        List.nil_append, List.map_map]
      rfl

/-- A host where every spawned process runs, `yay` exits 0, everything else
(including the primary `sudo pacman`) exits non-zero, and `which` runs. -/
def hostYayWins : Host :=
  ⟨fun p _ => .ok (p == "yay"), fun _ => .ok true⟩

/-- C3 witness: `source = "official"`, the primary manager fails, `yay`
succeeds: the operation succeeds (the primary failure was not fatal). -/
theorem single_failure_not_fatal_witness :
    ((install_package hostYayWins "foo" "official").1 = .ok ↔
      ∃ c ∈ candidateInvocations hostYayWins "foo" "official",
        hostYayWins.spawnStatus c.2.1 c.2.2 = .ok true) ∧
    ((∀ c ∈ candidateInvocations hostYayWins "foo" "official",
        hostYayWins.spawnStatus c.2.1 c.2.2 = .ok false) →
      install_package hostYayWins "foo" "official" =
        (.exhausted ((candidateInvocations hostYayWins "foo" "official").map
            Prod.fst),
          (candidateInvocations hostYayWins "foo" "official").map Prod.fst)) :=
  single_failure_not_fatal hostYayWins "foo" "official"
    (fun p _ => ⟨p == "yay", rfl⟩)

/-- The C4 failing host: the `which` binary itself is present (its spawn
succeeds), but it reports every helper as absent (exit status 1, the `false`
in `whichOutput`); the primary manager runs and fails; spawning any helper
fails because the helper does not exist on the host. -/
def hostHelpersAbsent : Host :=
  ⟨fun p _ => if p = "sudo" then .ok false
    else .error "No such file or directory",
   fun _ => .ok false⟩

/-- C4 is violated by the code: the probe `which yay` ran and reported `yay`
absent (exit status 1), yet `yay` is attempted anyway — the code only checks
`.output().is_ok()`, i.e. that `which` itself could be spawned, never its
exit status — and the resulting spawn failure aborts the whole operation
instead of skipping to `paru`. -/
theorem absent_helper_still_attempted :
    install_package hostHelpersAbsent "foo" "official" =
      (.spawnErr "Failed to run yay: No such file or directory",
        ["pacman", "yay"]) := by
  rfl

end Archlink
